import Mathlib

/-!
Verification of the Adaptive Liquidity Orchestrator contracts.

Shallow embedding of src/contracts/VaultManager.sol and of the
RebalanceExecutor contract (second contract in src/contracts/mocks/MockOracle.sol),
over explicit state records.  uint256 values are Nat with Solidity 0.8
checked arithmetic made explicit: every addition, subtraction,
multiplication and division from the source goes through a checked
operation that fails with an arithmetic panic exactly when the EVM would
revert with Panic(0x11)/Panic(0x12).  A reverting call returns an error
and, by the commit wrappers below, leaves the pre-state untouched, which
is exactly the EVM transaction-revert semantics.  ERC-20 token transfers
are external calls that do not touch the ledger state and are modelled as
succeeding.  Events and gas metering are not modelled.
-/

namespace ALO

/-- EVM addresses (160 bits); address 0 is the zero-address sentinel. -/
abbrev Addr := Fin (2 ^ 160)

/-- One past the largest uint256 value. -/
def UMAX : Nat := 2 ^ 256

/-- Revert reasons of the two contracts: the custom errors declared in
VaultManager.sol / RebalanceExecutor, the OpenZeppelin Pausable and Ownable
errors, string require-reverts, and the arithmetic panic of checked
uint256 arithmetic. -/
inductive Err where
  | Panic
  | VaultNotFound
  | InsufficientDeposit
  | InsufficientShares
  | UnauthorizedRelayer
  | VaultInactive
  | InvalidTokens
  | ZeroAddress
  | EnforcedPause
  | OwnableUnauthorized
  | RequireMsg (msg : String)
  | InvalidSignature
  | PayloadExpired
  | PayloadTooOld
  | InvalidNonce
  | UnauthorizedSigner
  | ExecutionFailed
  deriving DecidableEq, Repr

/-- Checked uint256 addition: reverts with Panic on overflow. -/
def uadd (a b : Nat) : Except Err Nat :=
  if a + b < UMAX then .ok (a + b) else .error .Panic

/-- Checked uint256 subtraction: reverts with Panic on underflow. -/
def usub (a b : Nat) : Except Err Nat :=
  if b ≤ a then .ok (a - b) else .error .Panic

/-- Checked uint256 multiplication: reverts with Panic on overflow. -/
def umul (a b : Nat) : Except Err Nat :=
  if a * b < UMAX then .ok (a * b) else .error .Panic

/-- Checked uint256 division: reverts with Panic on division by zero. -/
def udiv (a b : Nat) : Except Err Nat :=
  if b = 0 then .error .Panic else .ok (a / b)

/-- IVaultManager.StrategyParams (src/contracts/interfaces/IVault.sol). -/
structure StrategyParams where
  tickLower : Int
  tickUpper : Int
  rebalanceThreshold : Nat
  autoRebalance : Bool
  deriving DecidableEq, Repr

/-- IVault.VaultInfo (src/contracts/interfaces/IVault.sol). -/
structure VaultInfo where
  vaultId : Nat
  owner : Addr
  tokenA : Addr
  tokenB : Addr
  totalShares : Nat
  totalTokenA : Nat
  totalTokenB : Nat
  strategy : Addr
  lastRebalance : Nat
  isActive : Bool
  deriving DecidableEq, Repr

/-- The all-zero VaultInfo: the value an untouched mapping slot decodes to. -/
def VaultInfo.zero : VaultInfo :=
  { vaultId := 0, owner := 0, tokenA := 0, tokenB := 0, totalShares := 0,
    totalTokenA := 0, totalTokenB := 0, strategy := 0, lastRebalance := 0,
    isActive := false }

/-- The all-zero StrategyParams mapping default. -/
def StrategyParams.zero : StrategyParams :=
  { tickLower := 0, tickUpper := 0, rebalanceThreshold := 0, autoRebalance := false }

/-- Storage of the VaultManager contract (src/contracts/VaultManager.sol).
Solidity mappings are total functions defaulting to zero values. -/
structure VMState where
  vaultCount : Nat
  vaults : Nat → VaultInfo
  vaultStrategies : Nat → StrategyParams
  userShares : Nat → Addr → Nat
  authorizedRelayers : Addr → Bool
  strategyManager : Addr
  protocolFeeBps : Nat
  feeRecipient : Addr
  owner : Addr
  paused : Bool

/-- VaultManager.MIN_DEPOSIT = 1e6. -/
def MIN_DEPOSIT : Nat := 1000000

/-- State of VaultManager right after its constructor ran: all mappings
zeroed, protocolFeeBps = 50, deployer is the owner. -/
def VMState.init (deployer _feeRecipient : Addr) : VMState :=
  { vaultCount := 0, vaults := fun _ => VaultInfo.zero,
    vaultStrategies := fun _ => StrategyParams.zero,
    userShares := fun _ _ => 0, authorizedRelayers := fun _ => false,
    strategyManager := 0, protocolFeeBps := 50, feeRecipient := _feeRecipient,
    owner := deployer, paused := false }

/-- Commit semantics of a transaction returning a value: on success the new
state is kept, on revert the whole transaction rolls back to the pre-state. -/
def commit {α : Type} (s : VMState) : Except Err (α × VMState) → VMState
  | .ok (_, s2) => s2
  | .error _ => s

/-- Commit semantics of a transaction returning no value. -/
def commitP (s : VMState) : Except Err VMState → VMState
  | .ok s2 => s2
  | .error _ => s

/-- VaultManager.createVault (VaultManager.sol lines 75-101).  The
whenNotPaused modifier is the leading check; vaultId := ++vaultCount. -/
def createVault (s : VMState) (sender : Addr) (now : Nat)
    (tokenA tokenB : Addr) (params : StrategyParams) :
    Except Err (Nat × VMState) :=
  if s.paused then .error .EnforcedPause
  else if tokenA = 0 ∨ tokenB = 0 then .error .InvalidTokens
  else if tokenA = tokenB then .error .InvalidTokens
  else
    match uadd s.vaultCount 1 with
    | .error e => .error e
    | .ok vid =>
      .ok (vid,
        { s with
          vaultCount := vid,
          vaults := Function.update s.vaults vid
            { vaultId := vid, owner := sender, tokenA := tokenA,
              tokenB := tokenB, totalShares := 0, totalTokenA := 0,
              totalTokenB := 0, strategy := 0, lastRebalance := now,
              isActive := true },
          vaultStrategies := Function.update s.vaultStrategies vid params })

set_option linter.unusedVariables false in
/-- The Babylonian loop of VaultManager._sqrt (lines 330-333):
while z < y do y := z; z := (x / z + z) / 2.  The division by the
literal 2 cannot revert; x / z and x / z + z are checked. -/
def sqrtLoopC (x y z : Nat) : Except Err Nat :=
  if h : z < y then
    match udiv x z with
    | .error e => .error e
    | .ok q =>
      match uadd q z with
      | .error e => .error e
      | .ok t => sqrtLoopC x z (t / 2)
  else .ok y
termination_by y
decreasing_by exact h

/-- VaultManager._sqrt (lines 326-334).  Note that for x = 2^256 - 1 the
initial z = (x + 1) / 2 computation overflows and the function reverts. -/
def sqrtU (x : Nat) : Except Err Nat :=
  if x = 0 then .ok 0
  else
    match uadd x 1 with
    | .error e => .error e
    | .ok t => sqrtLoopC x x (t / 2)

/-- VaultManager.deposit (lines 110-142).  The two safeTransferFrom calls
move tokens but not ledger state and are modelled as succeeding. -/
def deposit (s : VMState) (sender : Addr) (vaultId amountA amountB : Nat) :
    Except Err (Nat × VMState) :=
  if s.paused then .error .EnforcedPause
  else
    let v := s.vaults vaultId
    if v.owner = 0 then .error .VaultNotFound
    else if v.isActive = false then .error .VaultInactive
    else if amountA < MIN_DEPOSIT ∨ amountB < MIN_DEPOSIT then .error .InsufficientDeposit
    else
      match
        ((if v.totalShares = 0 then
          match umul amountA amountB with
          | .error e => .error e
          | .ok p => sqrtU p
        else
          match umul amountA v.totalShares with
          | .error e => .error e
          | .ok nA =>
            match udiv nA v.totalTokenA with
            | .error e => .error e
            | .ok shareA =>
              match umul amountB v.totalShares with
              | .error e => .error e
              | .ok nB =>
                match udiv nB v.totalTokenB with
                | .error e => .error e
                | .ok shareB => .ok (if shareA < shareB then shareA else shareB)) :
          Except Err Nat) with
      | .error e => .error e
      | .ok shares =>
        match uadd v.totalShares shares with
        | .error e => .error e
        | .ok ts2 =>
          match uadd v.totalTokenA amountA with
          | .error e => .error e
          | .ok ta2 =>
            match uadd v.totalTokenB amountB with
            | .error e => .error e
            | .ok tb2 =>
              match uadd (s.userShares vaultId sender) shares with
              | .error e => .error e
              | .ok us2 =>
                .ok (shares,
                  { s with
                    vaults := Function.update s.vaults vaultId
                      { v with totalShares := ts2, totalTokenA := ta2,
                               totalTokenB := tb2 },
                    userShares := Function.update s.userShares vaultId
                      (Function.update (s.userShares vaultId) sender us2) })

/-- VaultManager.withdraw (lines 151-174).  No whenNotPaused modifier. -/
def withdraw (s : VMState) (sender : Addr) (vaultId shares : Nat) :
    Except Err ((Nat × Nat) × VMState) :=
  let v := s.vaults vaultId
  if v.owner = 0 then .error .VaultNotFound
  else if s.userShares vaultId sender < shares then .error .InsufficientShares
  else
    match umul shares v.totalTokenA with
    | .error e => .error e
    | .ok pA =>
      match udiv pA v.totalShares with
      | .error e => .error e
      | .ok amountA =>
        match umul shares v.totalTokenB with
        | .error e => .error e
        | .ok pB =>
          match udiv pB v.totalShares with
          | .error e => .error e
          | .ok amountB =>
            match usub v.totalShares shares with
            | .error e => .error e
            | .ok ts2 =>
              match usub v.totalTokenA amountA with
              | .error e => .error e
              | .ok ta2 =>
                match usub v.totalTokenB amountB with
                | .error e => .error e
                | .ok tb2 =>
                  match usub (s.userShares vaultId sender) shares with
                  | .error e => .error e
                  | .ok us2 =>
                    .ok ((amountA, amountB),
                      { s with
                        vaults := Function.update s.vaults vaultId
                          { v with totalShares := ts2, totalTokenA := ta2,
                                   totalTokenB := tb2 },
                        userShares := Function.update s.userShares vaultId
                          (Function.update (s.userShares vaultId) sender us2) })

/-- The decoded form of the strategyData / actionData bytes blob:
abi.decode(strategyData, (int24, int24, uint256)) in VaultManager.rebalance
(lines 195-198).  The third component is decoded but never read. -/
structure ActionData where
  newTickLower : Int
  newTickUpper : Int
  reallocatePct : Nat
  deriving DecidableEq, Repr

/-- VaultManager.rebalance (lines 181-223).  The fee transfers to the fee
recipient are external token movements with no further ledger effect. -/
def rebalance (s : VMState) (sender : Addr) (now : Nat) (vaultId : Nat)
    (action : ActionData) : Except Err VMState :=
  if s.paused then .error .EnforcedPause
  else if s.authorizedRelayers sender = false ∧ sender ≠ s.owner then
    .error .UnauthorizedRelayer
  else
    let v := s.vaults vaultId
    if v.owner = 0 then .error .VaultNotFound
    else if v.isActive = false then .error .VaultInactive
    else
      match umul v.totalTokenA s.protocolFeeBps with
      | .error e => .error e
      | .ok pA =>
        match umul v.totalTokenB s.protocolFeeBps with
        | .error e => .error e
        | .ok pB =>
          let feeA := pA / 10000
          let feeB := pB / 10000
          match (if 0 < feeA then usub v.totalTokenA feeA else .ok v.totalTokenA) with
          | .error e => .error e
          | .ok ta2 =>
            match (if 0 < feeB then usub v.totalTokenB feeB else .ok v.totalTokenB) with
            | .error e => .error e
            | .ok tb2 =>
              .ok { s with
                vaults := Function.update s.vaults vaultId
                  { v with lastRebalance := now, totalTokenA := ta2,
                           totalTokenB := tb2 },
                vaultStrategies := Function.update s.vaultStrategies vaultId
                  { s.vaultStrategies vaultId with
                    tickLower := action.newTickLower,
                    tickUpper := action.newTickUpper } }

/-- VaultManager.setProtocolFee (lines 277-280): onlyOwner, then
require(newFeeBps <= 1000, "Fee too high"). -/
def setProtocolFee (s : VMState) (sender : Addr) (newFeeBps : Nat) :
    Except Err VMState :=
  if sender ≠ s.owner then .error .OwnableUnauthorized
  else if 1000 < newFeeBps then .error (.RequireMsg "Fee too high")
  else .ok { s with protocolFeeBps := newFeeBps }

/-- IRebalanceExecutor.RebalancePayload, with its actionData bytes field
carried in decoded form (the executor forwards the raw bytes unchanged to
VaultManager.rebalance, which decodes them). -/
structure RebalancePayload where
  vaultId : Nat
  nonce : Nat
  actionData : ActionData
  issuedAt : Nat
  expiry : Nat
  deriving DecidableEq, Repr

/-- Opaque ECDSA signatures. -/
abbrev Sig := Nat

/-- Storage of the RebalanceExecutor contract, plus selfAddr, the address
of the executor contract itself (the msg.sender VaultManager sees on the
downstream rebalance call). -/
structure REState where
  selfAddr : Addr
  vaultManager : Addr
  authorizedSigners : Addr → Bool
  nonces : Addr → Nat
  maxPayloadAge : Nat
  maxExpiryDuration : Nat
  owner : Addr

/-- Combined state of the deployed system: the executor contract and the
VaultManager instance its vaultManager address points at. -/
structure SysState where
  re : REState
  vm : VMState

/-- Commit semantics for an executor transaction. -/
def commitS (s : SysState) : Except Err SysState → SysState
  | .ok s2 => s2
  | .error _ => s

/-- RebalanceExecutor.executeRebalance (MockOracle.sol lines 207-258).
ECDSA recovery over the EIP-712 hash is deterministic in the payload
fields and the signature; it is modelled by the recover oracle argument.
The low-level vaultManager.call swallows the revert of the inner
rebalance (success = false) and the executor then reverts the whole
transaction, nonce increment included, with ExecutionFailed.  The caller
argument is unused by the source except in the emitted event. -/
def executeRebalance (recover : RebalancePayload → Sig → Addr)
    (s : SysState) (now : Nat) (_caller : Addr) (vaultId : Nat)
    (payload : RebalancePayload) (signature : Sig) : Except Err SysState :=
  if payload.vaultId ≠ vaultId then .error .InvalidSignature
  else if payload.expiry < now then .error .PayloadExpired
  else if now < payload.issuedAt then .error .PayloadTooOld
  else
    match uadd payload.issuedAt s.re.maxPayloadAge with
    | .error e => .error e
    | .ok deadline =>
      if deadline < now then .error .PayloadTooOld
      else
        let signer := recover payload signature
        if s.re.authorizedSigners signer = false then .error .UnauthorizedSigner
        else if s.re.nonces signer ≠ payload.nonce then .error .InvalidNonce
        else
          match uadd (s.re.nonces signer) 1 with
          | .error e => .error e
          | .ok n2 =>
            match rebalance s.vm s.re.selfAddr now vaultId payload.actionData with
            | .error _ => .error .ExecutionFailed
            | .ok vm2 =>
              .ok { re := { s.re with nonces := Function.update s.re.nonces signer n2 },
                    vm := vm2 }

/-- One user-facing VaultManager transaction, for quantifying over
sequences of ledger operations. -/
inductive Op where
  | create (sender : Addr) (now : Nat) (tokenA tokenB : Addr) (params : StrategyParams)
  | deposit (sender : Addr) (vaultId amountA amountB : Nat)
  | withdraw (sender : Addr) (vaultId shares : Nat)
  | rebalance (sender : Addr) (now : Nat) (vaultId : Nat) (action : ActionData)

/-- Effect of one transaction on VaultManager storage (revert rolls back). -/
def execOp (s : VMState) : Op → VMState
  | .create sender now tokenA tokenB params => commit s (createVault s sender now tokenA tokenB params)
  | .deposit sender vaultId amountA amountB => commit s (deposit s sender vaultId amountA amountB)
  | .withdraw sender vaultId shares => commit s (withdraw s sender vaultId shares)
  | .rebalance sender now vaultId action => commitP s (rebalance s sender now vaultId action)

/-- Effect of a sequence of transactions. -/
def execTrace (s : VMState) (ops : List Op) : VMState :=
  ops.foldl execOp s

/-- Share conservation: for every vault id the sum of all user share
balances equals the recorded totalShares. -/
def Inv (s : VMState) : Prop :=
  ∀ vid : Nat, (∑ a : Addr, s.userShares vid a) = (s.vaults vid).totalShares

/-- Strengthened reachability invariant: share conservation plus the fact
that vault ids beyond vaultCount are completely untouched. -/
def SInv (s : VMState) : Prop :=
  Inv s ∧ ∀ vid : Nat, s.vaultCount < vid →
    s.vaults vid = VaultInfo.zero ∧ ∀ a : Addr, s.userShares vid a = 0

/-- One executor transaction descriptor, for quantifying over sequences of
executeRebalance calls. -/
structure ExecCall where
  now : Nat
  caller : Addr
  vaultId : Nat
  payload : RebalancePayload
  signature : Sig

/-- Effect of a sequence of executeRebalance transactions on the system. -/
def execCalls (recover : RebalancePayload → Sig → Addr)
    (s : SysState) (calls : List ExecCall) : SysState :=
  calls.foldl
    (fun t c => commitS t (executeRebalance recover t c.now c.caller c.vaultId c.payload c.signature))
    s

/-- Helper: the executor state after the nonce increment for one signer. -/
def bumpNonce (r : REState) (a : Addr) (n : Nat) : REState :=
  { r with nonces := Function.update r.nonces a n }


def WV : VaultInfo :=
  { vaultId := 1, owner := 3, tokenA := 1, tokenB := 2,
    totalShares := 2 ^ 160 * 1000,
    totalTokenA := 2 ^ 160 * 1000000, totalTokenB := 2 ^ 160 * 1000000,
    strategy := 0, lastRebalance := 0, isActive := true }

def WS : VMState :=
  { vaultCount := 1,
    vaults := Function.update (fun _ => VaultInfo.zero) 1 WV,
    vaultStrategies := fun _ => StrategyParams.zero,
    userShares := fun vid _ => if vid = 1 then 1000 else 0,
    authorizedRelayers := Function.update (fun _ => false) 7 true,
    strategyManager := 0, protocolFeeBps := 50, feeRecipient := 4, owner := 5,
    paused := false }

def ZV : VaultInfo :=
  { WV with totalShares := 0, totalTokenA := 0, totalTokenB := 0 }

def ZS : VMState :=
  { WS with vaults := Function.update (fun _ => VaultInfo.zero) 1 ZV,
            userShares := fun _ _ => 0 }

def PS : VMState := { WS with paused := true }

def recover0 : RebalancePayload → Sig → Addr := fun _ _ => 11

def RS : REState :=
  { selfAddr := 7, vaultManager := 6,
    authorizedSigners := Function.update (fun _ => false) 11 true,
    nonces := fun _ => 0, maxPayloadAge := 600, maxExpiryDuration := 3600,
    owner := 5 }

def SYS : SysState := { re := RS, vm := WS }

def A0 : ActionData :=
  { newTickLower := -900000, newTickUpper := 900000, reallocatePct := 30 }

def P0 : RebalancePayload :=
  { vaultId := 1, nonce := 0, actionData := A0, issuedAt := 100, expiry := 600 }

def P2 : RebalancePayload := { P0 with vaultId := 2 }

def SYS2 : SysState := commitS SYS (executeRebalance recover0 SYS 200 9 1 P0 0)



@[simp] theorem commit_error {α : Type} (s : VMState) (e : Err) :
    commit s (.error e : Except Err (α × VMState)) = s := rfl

@[simp] theorem commit_ok {α : Type} (s s2 : VMState) (x : α) :
    commit s (.ok (x, s2)) = s2 := rfl

@[simp] theorem commitP_error (s : VMState) (e : Err) :
    commitP s (.error e) = s := rfl

@[simp] theorem commitP_ok (s s2 : VMState) : commitP s (.ok s2) = s2 := rfl

@[simp] theorem commitS_error (s : SysState) (e : Err) :
    commitS s (.error e) = s := rfl

@[simp] theorem commitS_ok (s s2 : SysState) : commitS s (.ok s2) = s2 := rfl

theorem uadd_eq_ok {a b c : Nat} : uadd a b = .ok c ↔ a + b < UMAX ∧ a + b = c := by
  unfold uadd; split <;> simp_all

theorem usub_eq_ok {a b c : Nat} : usub a b = .ok c ↔ b ≤ a ∧ a - b = c := by
  unfold usub; split <;> simp_all

theorem umul_eq_ok {a b c : Nat} : umul a b = .ok c ↔ a * b < UMAX ∧ a * b = c := by
  unfold umul; split <;> simp_all

theorem udiv_eq_ok {a b c : Nat} : udiv a b = .ok c ↔ b ≠ 0 ∧ a / b = c := by
  unfold udiv; split <;> simp_all

theorem uadd_ok {a b : Nat} (h : a + b < UMAX) : uadd a b = .ok (a + b) := by
  simp [uadd, h]

/-- C9: the reallocatePct component of the decoded actionData never influences
the resulting VaultManager state: two rebalance calls from the same state whose
actionData decode to the same tick range but different reallocatePct values
produce identical results (only the emitted event hash of the raw bytes can
differ, and events are not part of the state). -/
theorem rebalance_reallocate_pct_independent (s : VMState) (sender : Addr)
    (now vaultId : Nat) (tl tu : Int) (p1 p2 : Nat) :
    rebalance s sender now vaultId ⟨tl, tu, p1⟩ =
    rebalance s sender now vaultId ⟨tl, tu, p2⟩ := rfl

/-- C10: withdraw of zero shares from an existing vault whose totalShares is
zero passes the InsufficientShares guard (0 < 0 is false) and then divides by
totalShares = 0 in the proportional-amount computation, so the call aborts
with an unguarded arithmetic panic rather than returning (0, 0) or failing
with any of the named error conditions. -/
theorem withdraw_zero_totalShares_panics (s : VMState) (sender : Addr) (vaultId : Nat)
    (hex : (s.vaults vaultId).owner ≠ 0)
    (hts : (s.vaults vaultId).totalShares = 0) :
    withdraw s sender vaultId 0 = .error .Panic := by
  unfold withdraw
  rw [if_neg hex, if_neg (Nat.not_lt_zero _)]
  have h0 : umul 0 (s.vaults vaultId).totalTokenA = .ok 0 := by
    simp [umul, UMAX]
  rw [h0, hts]
  simp [udiv]

/-- C7 (amended): rebalance authorization gating.  A direct rebalance call by
an account that is neither an authorized relayer nor the owner always fails
and changes no state: with UnauthorizedRelayer when the contract is not
paused, and with the Pausable EnforcedPause error when it is paused (the
whenNotPaused modifier runs before the relayer check, so the original claim of
always failing with UnauthorizedRelayer does not hold in paused states). -/
theorem rebalance_unauthorized_fails (s : VMState) (sender : Addr) (now vaultId : Nat)
    (action : ActionData) (hrel : s.authorizedRelayers sender = false)
    (hown : sender ≠ s.owner) :
    (s.paused = false →
      rebalance s sender now vaultId action = .error .UnauthorizedRelayer ∧
      commitP s (rebalance s sender now vaultId action) = s) ∧
    (s.paused = true →
      rebalance s sender now vaultId action = .error .EnforcedPause ∧
      commitP s (rebalance s sender now vaultId action) = s) := by
  constructor
  · intro hp
    have h : rebalance s sender now vaultId action = .error .UnauthorizedRelayer := by
      unfold rebalance
      rw [hp]
      simp only [Bool.false_eq_true, if_false]
      rw [if_pos ⟨hrel, hown⟩]
    exact ⟨h, by rw [h]; rfl⟩
  · intro hp
    have h : rebalance s sender now vaultId action = .error .EnforcedPause := by
      unfold rebalance
      rw [hp]
      simp only [if_true]
    exact ⟨h, by rw [h]; rfl⟩

/-- C3: temporal bounds of payload verification.  With the embedded vaultId
matching the call-site vaultId: when now is past the expiry the call fails
with PayloadExpired regardless of signature validity; otherwise a payload
claiming a future issuance fails with PayloadTooOld; and a payload older than
issuedAt + maxPayloadAge fails with PayloadTooOld even when not expired; in
each case the transaction reverts and the committed state is unchanged. -/
theorem executeRebalance_temporal_bounds (recover : RebalancePayload → Sig → Addr)
    (s : SysState) (now : Nat) (caller : Addr) (vaultId : Nat)
    (payload : RebalancePayload) (signature : Sig)
    (hvid : payload.vaultId = vaultId) :
    (payload.expiry < now →
      executeRebalance recover s now caller vaultId payload signature = .error .PayloadExpired ∧
      commitS s (executeRebalance recover s now caller vaultId payload signature) = s) ∧
    (now ≤ payload.expiry → now < payload.issuedAt →
      executeRebalance recover s now caller vaultId payload signature = .error .PayloadTooOld ∧
      commitS s (executeRebalance recover s now caller vaultId payload signature) = s) ∧
    (now ≤ payload.expiry → payload.issuedAt + s.re.maxPayloadAge < now → now < UMAX →
      executeRebalance recover s now caller vaultId payload signature = .error .PayloadTooOld ∧
      commitS s (executeRebalance recover s now caller vaultId payload signature) = s) := by
  have hv : ¬ payload.vaultId ≠ vaultId := by simp [hvid]
  refine ⟨?_, ?_, ?_⟩
  · intro h1
    have h : executeRebalance recover s now caller vaultId payload signature =
        .error .PayloadExpired := by
      unfold executeRebalance
      rw [if_neg hv, if_pos h1]
    exact ⟨h, by rw [h]; rfl⟩
  · intro h1 h2
    have h : executeRebalance recover s now caller vaultId payload signature =
        .error .PayloadTooOld := by
      unfold executeRebalance
      rw [if_neg hv, if_neg (Nat.not_lt.mpr h1), if_pos h2]
    exact ⟨h, by rw [h]; rfl⟩
  · intro h1 h3 h4
    have h2 : ¬ now < payload.issuedAt := by omega
    have h : executeRebalance recover s now caller vaultId payload signature =
        .error .PayloadTooOld := by
      unfold executeRebalance
      rw [if_neg hv, if_neg (Nat.not_lt.mpr h1), if_neg h2,
        uadd_ok (by omega : payload.issuedAt + s.re.maxPayloadAge < UMAX)]
      simp only []
      rw [if_pos h3]
    exact ⟨h, by rw [h]; rfl⟩

/-- C8: protocol fee ceiling and fee bound.  setProtocolFee fails for every
value strictly above 1000 and succeeds for every owner call with a value up to
1000, setting protocolFeeBps; every successful rebalance deducts exactly
floor (totalTokenX * protocolFeeBps / 10000) from each token total (the
deduction is skipped when the computed fee is zero, which deducts the same
amount, zero), and that fee is at most a protocolFeeBps / 10000 fraction of
the balance. -/
theorem setProtocolFee_ceiling_and_rebalance_fee_bound (s : VMState) (sender : Addr)
    (newFeeBps : Nat) :
    (1000 < newFeeBps → ∀ t, setProtocolFee s sender newFeeBps ≠ .ok t) ∧
    (sender = s.owner → newFeeBps ≤ 1000 →
      setProtocolFee s sender newFeeBps = .ok { s with protocolFeeBps := newFeeBps }) ∧
    (∀ now vaultId action s2, rebalance s sender now vaultId action = .ok s2 →
      (s2.vaults vaultId).totalTokenA =
        (s.vaults vaultId).totalTokenA -
          (s.vaults vaultId).totalTokenA * s.protocolFeeBps / 10000 ∧
      (s2.vaults vaultId).totalTokenB =
        (s.vaults vaultId).totalTokenB -
          (s.vaults vaultId).totalTokenB * s.protocolFeeBps / 10000 ∧
      ((s.vaults vaultId).totalTokenA * s.protocolFeeBps / 10000) * 10000 ≤
        (s.vaults vaultId).totalTokenA * s.protocolFeeBps ∧
      ((s.vaults vaultId).totalTokenB * s.protocolFeeBps / 10000) * 10000 ≤
        (s.vaults vaultId).totalTokenB * s.protocolFeeBps) := by
  refine ⟨?_, ?_, ?_⟩
  · intro hgt t h
    unfold setProtocolFee at h
    split at h <;> simp_all
  · intro hown hle
    unfold setProtocolFee
    rw [if_neg (by simp [hown]), if_neg (Nat.not_lt.mpr hle)]
  · intro now vaultId action s2 h
    simp only [rebalance] at h
    split at h
    · simp at h
    split at h
    · simp at h
    split at h
    · simp at h
    split at h
    · simp at h
    split at h
    · simp at h
    case _ pA hA =>
    split at h
    · simp at h
    case _ pB hB =>
    split at h
    · simp at h
    case _ ta2 hta =>
    split at h
    · simp at h
    case _ tb2 htb =>
    rw [umul_eq_ok] at hA hB
    obtain ⟨-, hA2⟩ := hA
    obtain ⟨-, hB2⟩ := hB
    have hta2 : ta2 = (s.vaults vaultId).totalTokenA -
        (s.vaults vaultId).totalTokenA * s.protocolFeeBps / 10000 := by
      subst hA2
      split at hta
      · rw [usub_eq_ok] at hta
        omega
      · simp only [Except.ok.injEq] at hta
        omega
    have htb2 : tb2 = (s.vaults vaultId).totalTokenB -
        (s.vaults vaultId).totalTokenB * s.protocolFeeBps / 10000 := by
      subst hB2
      split at htb
      · rw [usub_eq_ok] at htb
        omega
      · simp only [Except.ok.injEq] at htb
        omega
    simp only [Except.ok.injEq] at h
    subst h
    refine ⟨?_, ?_, Nat.div_mul_le_self _ _, Nat.div_mul_le_self _ _⟩
    · simp [Function.update_same, hta2]
    · simp [Function.update_same, htb2]


@[simp] theorem bumpNonce_nonces (r : REState) (a : Addr) (n : Nat) :
    (bumpNonce r a n).nonces = Function.update r.nonces a n := rfl

@[simp] theorem bumpNonce_authorizedSigners (r : REState) (a : Addr) (n : Nat) :
    (bumpNonce r a n).authorizedSigners = r.authorizedSigners := rfl

@[simp] theorem bumpNonce_maxPayloadAge (r : REState) (a : Addr) (n : Nat) :
    (bumpNonce r a n).maxPayloadAge = r.maxPayloadAge := rfl

@[simp] theorem bumpNonce_selfAddr (r : REState) (a : Addr) (n : Nat) :
    (bumpNonce r a n).selfAddr = r.selfAddr := rfl

/-- Helper: when every verifier check passes, executeRebalance reduces to
the dispatch on the downstream rebalance call. -/
theorem executeRebalance_checks_pass (recover : RebalancePayload → Sig → Addr)
    (s : SysState) (now : Nat) (caller : Addr) (vaultId : Nat)
    (payload : RebalancePayload) (signature : Sig)
    (hvid : payload.vaultId = vaultId)
    (h1 : now ≤ payload.expiry) (h2 : payload.issuedAt ≤ now)
    (hsum : payload.issuedAt + s.re.maxPayloadAge < UMAX)
    (h3 : now ≤ payload.issuedAt + s.re.maxPayloadAge)
    (hsig : s.re.authorizedSigners (recover payload signature) = true)
    (hnonce : s.re.nonces (recover payload signature) = payload.nonce)
    (hnov : payload.nonce + 1 < UMAX) :
    executeRebalance recover s now caller vaultId payload signature =
      (match rebalance s.vm s.re.selfAddr now vaultId payload.actionData with
       | .error _ => .error .ExecutionFailed
       | .ok vm2 =>
         .ok { re := bumpNonce s.re (recover payload signature) (payload.nonce + 1), vm := vm2 }) := by
  simp only [executeRebalance]
  rw [if_neg (by simp [hvid]), if_neg (Nat.not_lt.mpr h1), if_neg (Nat.not_lt.mpr h2)]
  rw [uadd_ok hsum]
  simp only [hsig, hnonce]
  rw [if_neg (Nat.not_lt.mpr h3), if_neg (by simp), if_neg (by simp)]
  rw [uadd_ok hnov]
  rfl

/-- Helper: everything a successful executeRebalance implies. -/
theorem executeRebalance_ok_inv {recover : RebalancePayload → Sig → Addr}
    {s : SysState} {now : Nat} {caller : Addr} {vaultId : Nat}
    {payload : RebalancePayload} {signature : Sig} {s2 : SysState}
    (h : executeRebalance recover s now caller vaultId payload signature = .ok s2) :
    payload.vaultId = vaultId ∧ now ≤ payload.expiry ∧ payload.issuedAt ≤ now ∧
    payload.issuedAt + s.re.maxPayloadAge < UMAX ∧
    now ≤ payload.issuedAt + s.re.maxPayloadAge ∧
    s.re.authorizedSigners (recover payload signature) = true ∧
    s.re.nonces (recover payload signature) = payload.nonce ∧
    payload.nonce + 1 < UMAX ∧
    s2.re = bumpNonce s.re (recover payload signature) (payload.nonce + 1) ∧
    ∃ vm2, rebalance s.vm s.re.selfAddr now vaultId payload.actionData = .ok vm2 ∧
      s2.vm = vm2 := by
  simp only [executeRebalance] at h
  by_cases hvid : payload.vaultId ≠ vaultId
  · rw [if_pos hvid] at h; exact absurd h (by simp)
  rw [if_neg hvid] at h
  by_cases h1 : payload.expiry < now
  · rw [if_pos h1] at h; exact absurd h (by simp)
  rw [if_neg h1] at h
  by_cases h2 : now < payload.issuedAt
  · rw [if_pos h2] at h; exact absurd h (by simp)
  rw [if_neg h2] at h
  cases hu : uadd payload.issuedAt s.re.maxPayloadAge with
  | error e => rw [hu] at h; exact absurd h (by simp)
  | ok deadline =>
    simp only [hu] at h
    by_cases h3 : deadline < now
    · rw [if_pos h3] at h; exact absurd h (by simp)
    rw [if_neg h3] at h
    by_cases hsig : s.re.authorizedSigners (recover payload signature) = false
    · rw [if_pos hsig] at h; exact absurd h (by simp)
    rw [if_neg hsig] at h
    by_cases hn : s.re.nonces (recover payload signature) ≠ payload.nonce
    · rw [if_pos hn] at h; exact absurd h (by simp)
    rw [if_neg hn] at h
    cases hu2 : uadd (s.re.nonces (recover payload signature)) 1 with
    | error e => rw [hu2] at h; exact absurd h (by simp)
    | ok n2 =>
      simp only [hu2] at h
      cases hr : rebalance s.vm s.re.selfAddr now vaultId payload.actionData with
      | error e => rw [hr] at h; exact absurd h (by simp)
      | ok vm2 =>
        simp only [hr, Except.ok.injEq] at h
        rw [uadd_eq_ok] at hu hu2
        push_neg at hvid h1 h2 hn
        have hn2 : n2 = payload.nonce + 1 := by omega
        subst hn2
        refine ⟨hvid, h1, h2, by omega, by omega, ?_, hn, by omega, ?_, vm2, rfl, ?_⟩
        · cases hb : s.re.authorizedSigners (recover payload signature)
          · exact absurd hb hsig
          · rfl
        · rw [← h]; rfl
        · rw [← h]

/-- Helper: one committed executor transaction never decreases any nonce. -/
theorem nonces_mono_step (recover : RebalancePayload → Sig → Addr)
    (s : SysState) (c : ExecCall) (a : Addr) :
    s.re.nonces a ≤
      (commitS s (executeRebalance recover s c.now c.caller c.vaultId c.payload
        c.signature)).re.nonces a := by
  cases h : executeRebalance recover s c.now c.caller c.vaultId c.payload c.signature with
  | error e => simp
  | ok s2 =>
    obtain ⟨-, -, -, -, -, -, hn, -, hre, -⟩ := executeRebalance_ok_inv h
    simp only [commitS_ok, hre, bumpNonce_nonces]
    by_cases ha : a = recover c.payload c.signature
    · subst ha
      simp only [Function.update_same]
      omega
    · simp only [Function.update_noteq ha]
      exact le_refl _

theorem execCalls_cons (recover : RebalancePayload → Sig → Addr) (s : SysState)
    (c : ExecCall) (cs : List ExecCall) :
    execCalls recover s (c :: cs) =
      execCalls recover
        (commitS s (executeRebalance recover s c.now c.caller c.vaultId c.payload c.signature))
        cs := rfl

/-- Helper: nonces never decrease along any sequence of executor calls. -/
theorem nonces_mono_calls (recover : RebalancePayload → Sig → Addr)
    (s : SysState) (calls : List ExecCall) (a : Addr) :
    s.re.nonces a ≤ (execCalls recover s calls).re.nonces a := by
  induction calls generalizing s with
  | nil => exact le_refl _
  | cons c cs ih =>
    rw [execCalls_cons]
    exact le_trans (nonces_mono_step recover s c a) (ih _)

/-- C1: atomicity of executeRebalance.  When every verifier check passes, the
outcome is all-or-nothing: if the downstream VaultManager rebalance call fails
for any reason the whole transaction reverts with ExecutionFailed and the
committed state is the unchanged pre-state (in particular the signer nonce is
not burnt), and if the downstream call succeeds the signer nonce advances by
exactly one and the rebalance is applied — no reachable outcome has the nonce
advanced without the rebalance applied or vice versa. -/
theorem executeRebalance_atomicity (recover : RebalancePayload → Sig → Addr)
    (s : SysState) (now : Nat) (caller : Addr) (vaultId : Nat)
    (payload : RebalancePayload) (signature : Sig)
    (hvid : payload.vaultId = vaultId)
    (h1 : now ≤ payload.expiry) (h2 : payload.issuedAt ≤ now)
    (hsum : payload.issuedAt + s.re.maxPayloadAge < UMAX)
    (h3 : now ≤ payload.issuedAt + s.re.maxPayloadAge)
    (hsig : s.re.authorizedSigners (recover payload signature) = true)
    (hnonce : s.re.nonces (recover payload signature) = payload.nonce)
    (hnov : payload.nonce + 1 < UMAX) :
    (∀ e, rebalance s.vm s.re.selfAddr now vaultId payload.actionData = .error e →
      executeRebalance recover s now caller vaultId payload signature =
        .error .ExecutionFailed ∧
      commitS s (executeRebalance recover s now caller vaultId payload signature) = s) ∧
    (∀ vm2, rebalance s.vm s.re.selfAddr now vaultId payload.actionData = .ok vm2 →
      executeRebalance recover s now caller vaultId payload signature =
        .ok { re := bumpNonce s.re (recover payload signature) (payload.nonce + 1), vm := vm2 }) := by
  have hcp := executeRebalance_checks_pass recover s now caller vaultId payload signature
    hvid h1 h2 hsum h3 hsig hnonce hnov
  constructor
  · intro e hre
    have hfail : executeRebalance recover s now caller vaultId payload signature =
        .error .ExecutionFailed := by rw [hcp, hre]
    exact ⟨hfail, by rw [hfail]; rfl⟩
  · intro vm2 hre
    rw [hcp, hre]

/-- C2 (amended): replay protection and one-time nonce use.  A successful
executeRebalance increments the recovered signer nonce by exactly one and
changes no other nonce; resubmitting the identical payload and signature fails
with InvalidNonce at every time at which the payload still passes the temporal
checks; and after any further sequence of executor calls the same payload and
signature can never succeed again (at most one success per signed payload).
As literally stated the claim is falsified by resubmission after the expiry,
which fails with PayloadExpired rather than InvalidNonce. -/
theorem executeRebalance_replay_protection (recover : RebalancePayload → Sig → Addr)
    (s : SysState) (now : Nat) (caller : Addr) (vaultId : Nat)
    (payload : RebalancePayload) (signature : Sig) (s2 : SysState)
    (hsucc : executeRebalance recover s now caller vaultId payload signature = .ok s2) :
    s2.re.nonces (recover payload signature) =
      s.re.nonces (recover payload signature) + 1 ∧
    (∀ a, a ≠ recover payload signature → s2.re.nonces a = s.re.nonces a) ∧
    (∀ now2 caller2, now2 ≤ payload.expiry → payload.issuedAt ≤ now2 →
      now2 ≤ payload.issuedAt + s.re.maxPayloadAge →
      executeRebalance recover s2 now2 caller2 vaultId payload signature =
        .error .InvalidNonce) ∧
    (∀ calls now3 caller3 t,
      executeRebalance recover (execCalls recover s2 calls) now3 caller3 vaultId
        payload signature ≠ .ok t) := by
  obtain ⟨hvid, h1, h2, hsum, h3, hsig, hn, hnov, hre, vm2, hr, hvm⟩ :=
    executeRebalance_ok_inv hsucc
  refine ⟨?_, ?_, ?_, ?_⟩
  · rw [hre]
    simp only [bumpNonce_nonces, Function.update_same]
    omega
  · intro a ha
    rw [hre]
    simp only [bumpNonce_nonces, Function.update_noteq ha]
  · intro now2 caller2 g1 g2 g3
    simp only [executeRebalance]
    rw [if_neg (by simp [hvid]), if_neg (Nat.not_lt.mpr g1), if_neg (Nat.not_lt.mpr g2)]
    have hage : s2.re.maxPayloadAge = s.re.maxPayloadAge := by rw [hre]; rfl
    rw [hage, uadd_ok hsum]
    have hsig2 : s2.re.authorizedSigners (recover payload signature) = true := by
      rw [hre]; exact hsig
    have hn2 : s2.re.nonces (recover payload signature) = payload.nonce + 1 := by
      rw [hre]; simp [Function.update_same]
    simp only [hsig2, hn2]
    rw [if_neg (Nat.not_lt.mpr g3), if_neg (by simp), if_pos (by omega)]
  · intro calls now3 caller3 t hok
    obtain ⟨-, -, -, -, -, -, hn3, -, -, -⟩ := executeRebalance_ok_inv hok
    have hmono := nonces_mono_calls recover s2 calls (recover payload signature)
    have hn2 : s2.re.nonces (recover payload signature) = payload.nonce + 1 := by
      rw [hre]; simp [Function.update_same]
    omega


/-- Helper: effect of a pointwise update on the total of all balances. -/
theorem sum_update_addr (f : Addr → Nat) (a : Addr) (n : Nat) :
    (∑ x : Addr, Function.update f a n x) + f a = (∑ x : Addr, f x) + n := by
  rw [Finset.sum_update_of_mem (Finset.mem_univ a)]
  rw [← Finset.add_sum_erase Finset.univ f (Finset.mem_univ a)]
  rw [Finset.sdiff_singleton_eq_erase]
  omega

/-- Helper: one balance is at most the total of all balances. -/
theorem single_le_sum_addr (f : Addr → Nat) (a : Addr) :
    f a ≤ ∑ x : Addr, f x :=
  Finset.single_le_sum (fun i _ => Nat.zero_le (f i)) (Finset.mem_univ a)

theorem SInv_init (deployer fr : Addr) : SInv (VMState.init deployer fr) := by
  refine ⟨fun vid => ?_, fun vid _ => ⟨rfl, fun a => rfl⟩⟩
  simp [VMState.init, VaultInfo.zero]

theorem SInv_createVault (s : VMState) (sender : Addr) (now : Nat) (tA tB : Addr)
    (p : StrategyParams) (h : SInv s) :
    SInv (commit s (createVault s sender now tA tB p)) := by
  obtain ⟨hinv, hz⟩ := h
  simp only [createVault]
  by_cases hp : s.paused = true
  · rw [if_pos hp]; exact ⟨hinv, hz⟩
  rw [if_neg hp]
  by_cases h0 : tA = 0 ∨ tB = 0
  · rw [if_pos h0]; exact ⟨hinv, hz⟩
  rw [if_neg h0]
  by_cases hab : tA = tB
  · rw [if_pos hab]; exact ⟨hinv, hz⟩
  rw [if_neg hab]
  cases hu : uadd s.vaultCount 1 with
  | error e => simp only [hu]; exact ⟨hinv, hz⟩
  | ok vid =>
    simp only [hu, commit_ok]
    rw [uadd_eq_ok] at hu
    constructor
    · intro vid2
      by_cases hv : vid2 = vid
      · subst hv
        simp only [Function.update_same]
        have : ∀ a : Addr, s.userShares vid2 a = 0 := (hz vid2 (by omega)).2
        simp only [this, Finset.sum_const_zero]
      · simp only [Function.update_noteq hv]
        exact hinv vid2
    · intro vid2 hgt
      dsimp only at hgt
      have hgt2 : s.vaultCount < vid2 := by omega
      have hne : vid2 ≠ vid := by omega
      exact ⟨by simp only [Function.update_noteq hne]; exact (hz vid2 hgt2).1,
        (hz vid2 hgt2).2⟩

theorem SInv_deposit (s : VMState) (sender : Addr) (vaultId amountA amountB : Nat)
    (h : SInv s) :
    SInv (commit s (deposit s sender vaultId amountA amountB)) := by
  obtain ⟨hinv, hz⟩ := h
  simp only [deposit]
  by_cases hp : s.paused = true
  · rw [if_pos hp]; exact ⟨hinv, hz⟩
  rw [if_neg hp]
  by_cases ho : (s.vaults vaultId).owner = 0
  · rw [if_pos ho]; exact ⟨hinv, hz⟩
  rw [if_neg ho]
  by_cases hact : (s.vaults vaultId).isActive = false
  · rw [if_pos hact]; exact ⟨hinv, hz⟩
  rw [if_neg hact]
  by_cases hmin : amountA < MIN_DEPOSIT ∨ amountB < MIN_DEPOSIT
  · rw [if_pos hmin]; exact ⟨hinv, hz⟩
  rw [if_neg hmin]
  have hvle : vaultId ≤ s.vaultCount := by
    by_contra hlt
    push_neg at hlt
    have hzz := (hz vaultId hlt).1
    rw [hzz] at ho
    exact ho rfl
  cases hsh : (if (s.vaults vaultId).totalShares = 0 then
      match umul amountA amountB with
      | .error e => .error e
      | .ok p => sqrtU p
    else
      match umul amountA (s.vaults vaultId).totalShares with
      | .error e => .error e
      | .ok nA =>
        match udiv nA (s.vaults vaultId).totalTokenA with
        | .error e => .error e
        | .ok shareA =>
          match umul amountB (s.vaults vaultId).totalShares with
          | .error e => .error e
          | .ok nB =>
            match udiv nB (s.vaults vaultId).totalTokenB with
            | .error e => .error e
            | .ok shareB => .ok (if shareA < shareB then shareA else shareB) :
      Except Err Nat) with
  | error e => simp only [hsh]; exact ⟨hinv, hz⟩
  | ok shares =>
    simp only [hsh]
    cases h1 : uadd (s.vaults vaultId).totalShares shares with
    | error e => simp only [h1]; exact ⟨hinv, hz⟩
    | ok ts2 =>
      simp only [h1]
      cases h2 : uadd (s.vaults vaultId).totalTokenA amountA with
      | error e => simp only [h2]; exact ⟨hinv, hz⟩
      | ok ta2 =>
        simp only [h2]
        cases h3 : uadd (s.vaults vaultId).totalTokenB amountB with
        | error e => simp only [h3]; exact ⟨hinv, hz⟩
        | ok tb2 =>
          simp only [h3]
          cases h4 : uadd (s.userShares vaultId sender) shares with
          | error e => simp only [h4]; exact ⟨hinv, hz⟩
          | ok us2 =>
            simp only [h4, commit_ok]
            rw [uadd_eq_ok] at h1 h4
            constructor
            · intro vid2
              by_cases hv : vid2 = vaultId
              · subst hv
                simp only [Function.update_same]
                have hsum := sum_update_addr (s.userShares vid2) sender us2
                have hiv := hinv vid2
                omega
              · simp only [Function.update_noteq hv]
                exact hinv vid2
            · intro vid2 hgt
              dsimp only at hgt
              have hgt2 : s.vaultCount < vid2 := by omega
              have hne : vid2 ≠ vaultId := by omega
              exact ⟨by simp only [Function.update_noteq hne]; exact (hz vid2 hgt2).1,
                fun a => by simp only [Function.update_noteq hne]; exact (hz vid2 hgt2).2 a⟩

theorem SInv_withdraw (s : VMState) (sender : Addr) (vaultId shares : Nat)
    (h : SInv s) :
    SInv (commit s (withdraw s sender vaultId shares)) := by
  obtain ⟨hinv, hz⟩ := h
  simp only [withdraw]
  by_cases ho : (s.vaults vaultId).owner = 0
  · rw [if_pos ho]; exact ⟨hinv, hz⟩
  rw [if_neg ho]
  by_cases hus : s.userShares vaultId sender < shares
  · rw [if_pos hus]; exact ⟨hinv, hz⟩
  rw [if_neg hus]
  have hvle : vaultId ≤ s.vaultCount := by
    by_contra hlt
    push_neg at hlt
    have hzz := (hz vaultId hlt).1
    rw [hzz] at ho
    exact ho rfl
  cases m1 : umul shares (s.vaults vaultId).totalTokenA with
  | error e => simp only [m1]; exact ⟨hinv, hz⟩
  | ok pA =>
    simp only [m1]
    cases d1 : udiv pA (s.vaults vaultId).totalShares with
    | error e => simp only [d1]; exact ⟨hinv, hz⟩
    | ok amountA =>
      simp only [d1]
      cases m2 : umul shares (s.vaults vaultId).totalTokenB with
      | error e => simp only [m2]; exact ⟨hinv, hz⟩
      | ok pB =>
        simp only [m2]
        cases d2 : udiv pB (s.vaults vaultId).totalShares with
        | error e => simp only [d2]; exact ⟨hinv, hz⟩
        | ok amountB =>
          simp only [d2]
          cases u1 : usub (s.vaults vaultId).totalShares shares with
          | error e => simp only [u1]; exact ⟨hinv, hz⟩
          | ok ts2 =>
            simp only [u1]
            cases u2 : usub (s.vaults vaultId).totalTokenA amountA with
            | error e => simp only [u2]; exact ⟨hinv, hz⟩
            | ok ta2 =>
              simp only [u2]
              cases u3 : usub (s.vaults vaultId).totalTokenB amountB with
              | error e => simp only [u3]; exact ⟨hinv, hz⟩
              | ok tb2 =>
                simp only [u3]
                cases u4 : usub (s.userShares vaultId sender) shares with
                | error e => simp only [u4]; exact ⟨hinv, hz⟩
                | ok us2 =>
                  simp only [u4, commit_ok]
                  rw [usub_eq_ok] at u1 u4
                  constructor
                  · intro vid2
                    by_cases hv : vid2 = vaultId
                    · subst hv
                      simp only [Function.update_same]
                      have hsum := sum_update_addr (s.userShares vid2) sender us2
                      have hiv := hinv vid2
                      omega
                    · simp only [Function.update_noteq hv]
                      exact hinv vid2
                  · intro vid2 hgt
                    dsimp only at hgt
                    have hgt2 : s.vaultCount < vid2 := by omega
                    have hne : vid2 ≠ vaultId := by omega
                    exact ⟨by simp only [Function.update_noteq hne]; exact (hz vid2 hgt2).1,
                      fun a => by simp only [Function.update_noteq hne]; exact (hz vid2 hgt2).2 a⟩

theorem SInv_rebalance (s : VMState) (sender : Addr) (now vaultId : Nat)
    (action : ActionData) (h : SInv s) :
    SInv (commitP s (rebalance s sender now vaultId action)) := by
  obtain ⟨hinv, hz⟩ := h
  simp only [rebalance]
  by_cases hp : s.paused = true
  · rw [if_pos hp]; exact ⟨hinv, hz⟩
  rw [if_neg hp]
  by_cases hauth : s.authorizedRelayers sender = false ∧ sender ≠ s.owner
  · rw [if_pos hauth]; exact ⟨hinv, hz⟩
  rw [if_neg hauth]
  by_cases ho : (s.vaults vaultId).owner = 0
  · rw [if_pos ho]; exact ⟨hinv, hz⟩
  rw [if_neg ho]
  by_cases hact : (s.vaults vaultId).isActive = false
  · rw [if_pos hact]; exact ⟨hinv, hz⟩
  rw [if_neg hact]
  have hvle : vaultId ≤ s.vaultCount := by
    by_contra hlt
    push_neg at hlt
    have hzz := (hz vaultId hlt).1
    rw [hzz] at ho
    exact ho rfl
  cases m1 : umul (s.vaults vaultId).totalTokenA s.protocolFeeBps with
  | error e => simp only [m1]; exact ⟨hinv, hz⟩
  | ok pA =>
    simp only [m1]
    cases m2 : umul (s.vaults vaultId).totalTokenB s.protocolFeeBps with
    | error e => simp only [m2]; exact ⟨hinv, hz⟩
    | ok pB =>
      simp only [m2]
      cases f1 : (if 0 < pA / 10000 then usub (s.vaults vaultId).totalTokenA (pA / 10000)
          else .ok (s.vaults vaultId).totalTokenA : Except Err Nat) with
      | error e => simp only [f1]; exact ⟨hinv, hz⟩
      | ok ta2 =>
        simp only [f1]
        cases f2 : (if 0 < pB / 10000 then usub (s.vaults vaultId).totalTokenB (pB / 10000)
            else .ok (s.vaults vaultId).totalTokenB : Except Err Nat) with
        | error e => simp only [f2]; exact ⟨hinv, hz⟩
        | ok tb2 =>
          simp only [f2, commitP_ok]
          constructor
          · intro vid2
            by_cases hv : vid2 = vaultId
            · subst hv
              simp only [Function.update_same]
              exact hinv vid2
            · simp only [Function.update_noteq hv]
              exact hinv vid2
          · intro vid2 hgt
            dsimp only at hgt
            have hgt2 : s.vaultCount < vid2 := by omega
            have hne : vid2 ≠ vaultId := by omega
            exact ⟨by simp only [Function.update_noteq hne]; exact (hz vid2 hgt2).1,
              (hz vid2 hgt2).2⟩

theorem SInv_execOp (s : VMState) (op : Op) (h : SInv s) : SInv (execOp s op) := by
  cases op with
  | create sender now tokenA tokenB params => exact SInv_createVault s sender now tokenA tokenB params h
  | deposit sender vaultId amountA amountB => exact SInv_deposit s sender vaultId amountA amountB h
  | withdraw sender vaultId shares => exact SInv_withdraw s sender vaultId shares h
  | rebalance sender now vaultId action => exact SInv_rebalance s sender now vaultId action h

theorem SInv_execTrace (s : VMState) (h : SInv s) (ops : List Op) :
    SInv (execTrace s ops) := by
  induction ops generalizing s with
  | nil => exact h
  | cons op ops ih => exact ih (execOp s op) (SInv_execOp s op h)

/-- C4: share conservation.  Starting from the zeroed constructor state,
after any sequence of createVault / deposit / withdraw / rebalance
transactions, the sum over all accounts of the user share balances of every
vault equals that vault recorded totalShares. -/
theorem share_conservation (deployer fr : Addr) (ops : List Op) :
    Inv (execTrace (VMState.init deployer fr) ops) :=
  (SInv_execTrace (VMState.init deployer fr) (SInv_init deployer fr) ops).1


theorem usub_ok {a b : Nat} (h : b ≤ a) : usub a b = .ok (a - b) := by
  simp [usub, h]

theorem umul_ok {a b : Nat} (h : a * b < UMAX) : umul a b = .ok (a * b) := by
  simp [umul, h]

theorem udiv_ok {a b : Nat} (h : b ≠ 0) : udiv a b = .ok (a / b) := by
  simp [udiv, h]

/-- Helper: one Newton-Babylonian step never drops below the integer
square root (the AM-GM bound of the loop). -/
theorem sqrt_le_newton (x z : Nat) (hz : 0 < z) :
    Nat.sqrt x ≤ (x / z + z) / 2 := by
  rcases Nat.lt_or_ge z (2 * Nat.sqrt x) with hlt | hge
  · have hkey : z * (2 * Nat.sqrt x - z) ≤ Nat.sqrt x * Nat.sqrt x := by
      zify [Nat.le_of_lt hlt]
      nlinarith [sq_nonneg ((Nat.sqrt x : ℤ) - z)]
    have hx : Nat.sqrt x * Nat.sqrt x ≤ x := Nat.sqrt_le x
    have h1 : z * (2 * Nat.sqrt x - z) / z ≤ x / z :=
      Nat.div_le_div_right (le_trans hkey hx)
    rw [Nat.mul_div_cancel_left _ hz] at h1
    omega
  · have hzz : z / 2 ≤ (x / z + z) / 2 := Nat.div_le_div_right (Nat.le_add_left z (x / z))
    omega

/-- Helper: if the loop is about to exit (the next iterate is not smaller),
the current iterate is at most the integer square root. -/
theorem newton_exit_le_sqrt (x y : Nat) (hy : 0 < y)
    (h : y ≤ (x / y + y) / 2) : y ≤ Nat.sqrt x := by
  have h3 : y ≤ x / y := by omega
  exact Nat.le_sqrt.mpr ((Nat.le_div_iff_mul_le hy).mp h3)

theorem sqrt_lt_two_pow_128 {x : Nat} (hxu : x + 1 < UMAX) :
    Nat.sqrt x < 2 ^ 128 := by
  rw [Nat.sqrt_lt]
  have h : (2:Nat) ^ 128 * 2 ^ 128 = UMAX := by norm_num [UMAX]
  omega

theorem div_le_sqrt_add_two {x z : Nat} (hx : 0 < x) (hz : Nat.sqrt x ≤ z) :
    x / z ≤ Nat.sqrt x + 2 := by
  have hs : 0 < Nat.sqrt x := Nat.sqrt_pos.mpr hx
  have h1 : x / z ≤ x / Nat.sqrt x := Nat.div_le_div_left hz hs
  have h2 : x ≤ Nat.sqrt x * (Nat.sqrt x + 2) := by
    have h3 := Nat.lt_succ_sqrt x
    nlinarith
  have h4 : x / Nat.sqrt x ≤ Nat.sqrt x * (Nat.sqrt x + 2) / Nat.sqrt x :=
    Nat.div_le_div_right h2
  rw [Nat.mul_div_cancel_left _ hs] at h4
  omega

/-- Helper: total correctness of the checked Babylonian loop: starting from
any iterate within the stability region it terminates in the floor square
root with no arithmetic revert. -/
theorem sqrtLoopC_eq_sqrt (x : Nat) (hx : 0 < x) (hxu : x + 1 < UMAX) :
    ∀ y z, Nat.sqrt x ≤ z → 0 < z → z ≤ (x + 1) / 2 + Nat.sqrt x + 2 →
      Nat.sqrt x ≤ y → (¬ z < y → y ≤ Nat.sqrt x) →
      sqrtLoopC x y z = .ok (Nat.sqrt x) := by
  intro y
  induction y using Nat.strong_induction_on with
  | _ y ih =>
    intro z hzs hz0 hzb hys hexit
    unfold sqrtLoopC
    split
    case isTrue hlt =>
      have hzne : z ≠ 0 := Nat.pos_iff_ne_zero.mp hz0
      have hdivb : x / z ≤ Nat.sqrt x + 2 := div_le_sqrt_add_two hx hzs
      have hslt : Nat.sqrt x < 2 ^ 128 := sqrt_lt_two_pow_128 hxu
      have hadd : x / z + z < UMAX := by
        have hA : UMAX = 2 * 2 ^ 255 := by norm_num [UMAX]
        have hB : 2 ^ 128 + 2 ^ 128 + 8 ≤ 2 ^ 255 := by norm_num
        omega
      simp only [udiv_ok hzne, uadd_ok hadd]
      apply ih z hlt
      · exact sqrt_le_newton x z hz0
      · have h1 := sqrt_le_newton x z hz0
        have hs : 0 < Nat.sqrt x := Nat.sqrt_pos.mpr hx
        omega
      · omega
      · exact hzs
      · intro hnot
        exact newton_exit_le_sqrt x z hz0 (Nat.not_lt.mp hnot)
    case isFalse hnlt =>
      have h1 : y ≤ Nat.sqrt x := hexit hnlt
      have h2 : y = Nat.sqrt x := le_antisymm h1 hys
      rw [h2]

/-- Helper: the contract _sqrt equals the floor square root on every input
on which its internal x + 1 increment does not overflow. -/
theorem sqrtU_correct (x : Nat) (hxu : x + 1 < UMAX) :
    sqrtU x = .ok (Nat.sqrt x) := by
  unfold sqrtU
  by_cases hx0 : x = 0
  · subst hx0; simp
  rw [if_neg hx0]
  simp only [uadd_ok hxu]
  have hx : 0 < x := Nat.pos_of_ne_zero hx0
  apply sqrtLoopC_eq_sqrt x hx hxu x ((x + 1) / 2)
  · have h1 := Nat.sqrt_le x
    have hs : 0 < Nat.sqrt x := Nat.sqrt_pos.mpr hx
    have h2 : 2 * Nat.sqrt x ≤ x + 1 := by
      zify at h1 ⊢
      nlinarith [sq_nonneg ((Nat.sqrt x : ℤ) - 1)]
    omega
  · omega
  · omega
  · exact Nat.sqrt_le_self x
  · intro hnot
    have hx1 : x = 1 := by omega
    subst hx1
    simp

/-- Helper: the contract _sqrt reverts at the largest uint256 value. -/
theorem sqrtU_overflow : sqrtU (UMAX - 1) = .error .Panic := by
  have hU : 1 < UMAX := by norm_num [UMAX]
  unfold sqrtU
  rw [if_neg (by omega : ¬ UMAX - 1 = 0)]
  have h : ¬ (UMAX - 1 + 1 < UMAX) := by omega
  simp [uadd, h]

/-- Helper: any value the contract _sqrt returns is the floor square root. -/
theorem sqrtU_ok_val {p v : Nat} (h : sqrtU p = .ok v) : v = Nat.sqrt p := by
  by_cases hp : p + 1 < UMAX
  · rw [sqrtU_correct p hp] at h
    simp only [Except.ok.injEq] at h
    exact h.symm
  · exfalso
    unfold sqrtU at h
    by_cases hp0 : p = 0
    · subst hp0
      have : (1:Nat) < UMAX := by norm_num [UMAX]
      omega
    · rw [if_neg hp0] at h
      have he : uadd p 1 = .error .Panic := by simp [uadd, hp]
      simp [he] at h

/-- Helper: the share amount a successful deposit mints, in both branches. -/
theorem deposit_ok_shares {s : VMState} {sender : Addr}
    {vaultId amountA amountB shares : Nat} {s2 : VMState}
    (h : deposit s sender vaultId amountA amountB = .ok (shares, s2)) :
    ((s.vaults vaultId).totalShares = 0 → shares = Nat.sqrt (amountA * amountB)) ∧
    ((s.vaults vaultId).totalShares ≠ 0 →
      shares = min
        (amountA * (s.vaults vaultId).totalShares / (s.vaults vaultId).totalTokenA)
        (amountB * (s.vaults vaultId).totalShares / (s.vaults vaultId).totalTokenB)) := by
  simp only [deposit] at h
  by_cases hp : s.paused = true
  · rw [if_pos hp] at h; exact absurd h (by simp)
  rw [if_neg hp] at h
  by_cases ho : (s.vaults vaultId).owner = 0
  · rw [if_pos ho] at h; exact absurd h (by simp)
  rw [if_neg ho] at h
  by_cases hact : (s.vaults vaultId).isActive = false
  · rw [if_pos hact] at h; exact absurd h (by simp)
  rw [if_neg hact] at h
  by_cases hmin : amountA < MIN_DEPOSIT ∨ amountB < MIN_DEPOSIT
  · rw [if_pos hmin] at h; exact absurd h (by simp)
  rw [if_neg hmin] at h
  by_cases hts : (s.vaults vaultId).totalShares = 0
  · rw [if_pos hts] at h
    refine ⟨fun _ => ?_, fun hne => absurd hts hne⟩
    cases hm : umul amountA amountB with
    | error e => rw [hm] at h; exact absurd h (by simp)
    | ok p =>
      simp only [hm] at h
      cases hq : sqrtU p with
      | error e => rw [hq] at h; exact absurd h (by simp)
      | ok v =>
        simp only [hq] at h
        cases a1 : uadd (s.vaults vaultId).totalShares v with
        | error e => rw [a1] at h; exact absurd h (by simp)
        | ok ts2 =>
          simp only [a1] at h
          cases a2 : uadd (s.vaults vaultId).totalTokenA amountA with
          | error e => rw [a2] at h; exact absurd h (by simp)
          | ok ta2 =>
            simp only [a2] at h
            cases a3 : uadd (s.vaults vaultId).totalTokenB amountB with
            | error e => rw [a3] at h; exact absurd h (by simp)
            | ok tb2 =>
              simp only [a3] at h
              cases a4 : uadd (s.userShares vaultId sender) v with
              | error e => rw [a4] at h; exact absurd h (by simp)
              | ok us2 =>
                simp only [a4, Except.ok.injEq, Prod.mk.injEq] at h
                obtain ⟨hsh, -⟩ := h
                rw [← hsh]
                rw [(umul_eq_ok.mp hm).2]
                exact sqrtU_ok_val hq
  · rw [if_neg hts] at h
    refine ⟨fun h0 => absurd h0 hts, fun _ => ?_⟩
    cases m1 : umul amountA (s.vaults vaultId).totalShares with
    | error e => rw [m1] at h; exact absurd h (by simp)
    | ok nA =>
      simp only [m1] at h
      cases d1 : udiv nA (s.vaults vaultId).totalTokenA with
      | error e => rw [d1] at h; exact absurd h (by simp)
      | ok shareA =>
        simp only [d1] at h
        cases m2 : umul amountB (s.vaults vaultId).totalShares with
        | error e => rw [m2] at h; exact absurd h (by simp)
        | ok nB =>
          simp only [m2] at h
          cases d2 : udiv nB (s.vaults vaultId).totalTokenB with
          | error e => rw [d2] at h; exact absurd h (by simp)
          | ok shareB =>
            simp only [d2] at h
            cases a1 : uadd (s.vaults vaultId).totalShares
                (if shareA < shareB then shareA else shareB) with
            | error e => rw [a1] at h; exact absurd h (by simp)
            | ok ts2 =>
              simp only [a1] at h
              cases a2 : uadd (s.vaults vaultId).totalTokenA amountA with
              | error e => rw [a2] at h; exact absurd h (by simp)
              | ok ta2 =>
                simp only [a2] at h
                cases a3 : uadd (s.vaults vaultId).totalTokenB amountB with
                | error e => rw [a3] at h; exact absurd h (by simp)
                | ok tb2 =>
                  simp only [a3] at h
                  cases a4 : uadd (s.userShares vaultId sender)
                      (if shareA < shareB then shareA else shareB) with
                  | error e => rw [a4] at h; exact absurd h (by simp)
                  | ok us2 =>
                    simp only [a4, Except.ok.injEq, Prod.mk.injEq] at h
                    obtain ⟨hsh, -⟩ := h
                    rw [← hsh]
                    obtain ⟨-, hnA⟩ := umul_eq_ok.mp m1
                    obtain ⟨hta0, hdA⟩ := udiv_eq_ok.mp d1
                    obtain ⟨-, hnB⟩ := umul_eq_ok.mp m2
                    obtain ⟨htb0, hdB⟩ := udiv_eq_ok.mp d2
                    rw [← hdA, ← hdB, ← hnA, ← hnB]
                    split <;> omega

/-- C6 (amended): withdraw correctness and failure atomicity.  On an existing
vault, a caller holding fewer shares than requested fails with
InsufficientShares and changes no state; a caller holding enough shares, on a
share-conserving state with totalShares > 0 and non-overflowing proportional
products, receives exactly floor (shares * totalTokenX / totalShares) of each
token, with totalShares, both token totals and the caller share balance
decremented by exactly those amounts and never driven below zero.  As
literally stated the claim fails at totalShares = 0, where the proportional
computation divides by zero and panics instead of returning amounts. -/
theorem withdraw_correctness (s : VMState) (sender : Addr) (vaultId shares : Nat)
    (hex : (s.vaults vaultId).owner ≠ 0) :
    (s.userShares vaultId sender < shares →
      withdraw s sender vaultId shares = .error .InsufficientShares ∧
      commit s (withdraw s sender vaultId shares) = s) ∧
    (shares ≤ s.userShares vaultId sender →
      0 < (s.vaults vaultId).totalShares →
      shares * (s.vaults vaultId).totalTokenA < UMAX →
      shares * (s.vaults vaultId).totalTokenB < UMAX →
      Inv s →
      ∃ s2,
        withdraw s sender vaultId shares = .ok
          ((shares * (s.vaults vaultId).totalTokenA / (s.vaults vaultId).totalShares,
            shares * (s.vaults vaultId).totalTokenB / (s.vaults vaultId).totalShares), s2) ∧
        (s2.vaults vaultId).totalShares = (s.vaults vaultId).totalShares - shares ∧
        (s2.vaults vaultId).totalTokenA = (s.vaults vaultId).totalTokenA -
          shares * (s.vaults vaultId).totalTokenA / (s.vaults vaultId).totalShares ∧
        (s2.vaults vaultId).totalTokenB = (s.vaults vaultId).totalTokenB -
          shares * (s.vaults vaultId).totalTokenB / (s.vaults vaultId).totalShares ∧
        s2.userShares vaultId sender = s.userShares vaultId sender - shares ∧
        shares ≤ (s.vaults vaultId).totalShares ∧
        shares * (s.vaults vaultId).totalTokenA / (s.vaults vaultId).totalShares ≤
          (s.vaults vaultId).totalTokenA ∧
        shares * (s.vaults vaultId).totalTokenB / (s.vaults vaultId).totalShares ≤
          (s.vaults vaultId).totalTokenB) := by
  constructor
  · intro hlt
    have hw : withdraw s sender vaultId shares = .error .InsufficientShares := by
      unfold withdraw
      rw [if_neg hex, if_pos hlt]
    exact ⟨hw, by rw [hw]; rfl⟩
  · intro hsh hts hA hB hinv
    have hts0 : (s.vaults vaultId).totalShares ≠ 0 := Nat.pos_iff_ne_zero.mp hts
    have hst : shares ≤ (s.vaults vaultId).totalShares := by
      have h1 := single_le_sum_addr (s.userShares vaultId) sender
      have h2 := hinv vaultId
      omega
    have hamA : shares * (s.vaults vaultId).totalTokenA / (s.vaults vaultId).totalShares ≤
        (s.vaults vaultId).totalTokenA := by
      have h1 : shares * (s.vaults vaultId).totalTokenA ≤
          (s.vaults vaultId).totalShares * (s.vaults vaultId).totalTokenA :=
        Nat.mul_le_mul_right _ hst
      have h2 := Nat.div_le_div_right (c := (s.vaults vaultId).totalShares) h1
      rwa [Nat.mul_div_cancel_left _ hts] at h2
    have hamB : shares * (s.vaults vaultId).totalTokenB / (s.vaults vaultId).totalShares ≤
        (s.vaults vaultId).totalTokenB := by
      have h1 : shares * (s.vaults vaultId).totalTokenB ≤
          (s.vaults vaultId).totalShares * (s.vaults vaultId).totalTokenB :=
        Nat.mul_le_mul_right _ hst
      have h2 := Nat.div_le_div_right (c := (s.vaults vaultId).totalShares) h1
      rwa [Nat.mul_div_cancel_left _ hts] at h2
    have hw : withdraw s sender vaultId shares = .ok
        ((shares * (s.vaults vaultId).totalTokenA / (s.vaults vaultId).totalShares,
          shares * (s.vaults vaultId).totalTokenB / (s.vaults vaultId).totalShares),
         { s with
           vaults := Function.update s.vaults vaultId
             { s.vaults vaultId with
               totalShares := (s.vaults vaultId).totalShares - shares,
               totalTokenA := (s.vaults vaultId).totalTokenA -
                 shares * (s.vaults vaultId).totalTokenA / (s.vaults vaultId).totalShares,
               totalTokenB := (s.vaults vaultId).totalTokenB -
                 shares * (s.vaults vaultId).totalTokenB / (s.vaults vaultId).totalShares },
           userShares := Function.update s.userShares vaultId
             (Function.update (s.userShares vaultId) sender
               (s.userShares vaultId sender - shares)) }) := by
      unfold withdraw
      rw [if_neg hex, if_neg (Nat.not_lt.mpr hsh)]
      simp only [umul_ok hA, udiv_ok hts0, umul_ok hB, usub_ok hst, usub_ok hamA,
        usub_ok hamB, usub_ok hsh]
    refine ⟨_, hw, ?_, ?_, ?_, ?_, hst, hamA, hamB⟩
    · simp only [Function.update_same]
    · simp only [Function.update_same]
    · simp only [Function.update_same]
    · simp only [Function.update_same]


theorem Inv_WS : Inv WS := by
  intro vid
  have hu : WS.userShares = fun vid _ => if vid = 1 then 1000 else 0 := rfl
  have hv2 : WS.vaults = Function.update (fun _ => VaultInfo.zero) 1 WV := rfl
  rw [hu, hv2]
  by_cases hv : vid = 1
  · subst hv
    rw [Function.update_same]
    simp only [if_pos rfl]
    rw [Finset.sum_const, Finset.card_univ, Fintype.card_fin, smul_eq_mul]
    rfl
  · rw [Function.update_noteq hv]
    simp only [if_neg hv]
    simp [VaultInfo.zero]

/-- Counterexample to C2 as stated: after a success at time 200, resubmitting
the identical payload and signature at time 700 fails with PayloadExpired, not
InvalidNonce. -/
theorem executeRebalance_replay_expired_cex :
    executeRebalance recover0 SYS 200 9 1 P0 0 = .ok SYS2 ∧
    executeRebalance recover0 SYS2 700 9 1 P0 0 = .error .PayloadExpired ∧
    Err.PayloadExpired ≠ Err.InvalidNonce := by
  refine ⟨rfl, rfl, by decide⟩

/-- Witness for C2: a concrete success whose immediate resubmission fails with InvalidNonce. -/
theorem executeRebalance_replay_witness :
    SYS2.re.nonces (recover0 P0 0) = SYS.re.nonces (recover0 P0 0) + 1 ∧
    executeRebalance recover0 SYS2 200 9 1 P0 0 = .error .InvalidNonce := by
  have hok : executeRebalance recover0 SYS 200 9 1 P0 0 = .ok SYS2 := rfl
  have h := executeRebalance_replay_protection recover0 SYS 200 9 1 P0 0 SYS2 hok
  exact ⟨h.1, h.2.2.1 200 9 (by decide) (by decide) (by decide)⟩

/-- Witness for C1: a payload targeting a nonexistent vault makes the inner call fail and the executor revert atomically. -/
theorem executeRebalance_atomicity_witness :
    executeRebalance recover0 SYS 200 9 2 P2 0 = .error .ExecutionFailed ∧
    commitS SYS (executeRebalance recover0 SYS 200 9 2 P2 0) = SYS :=
  (executeRebalance_atomicity recover0 SYS 200 9 2 P2 0 rfl (by decide) (by decide)
    (by decide) (by decide) (by decide) rfl (by decide)).1 .VaultNotFound rfl

/-- Witness for C3: a concrete expired payload is rejected with PayloadExpired and no state change. -/
theorem executeRebalance_temporal_witness :
    executeRebalance recover0 SYS 700 9 1 P0 0 = .error .PayloadExpired ∧
    commitS SYS (executeRebalance recover0 SYS 700 9 1 P0 0) = SYS :=
  (executeRebalance_temporal_bounds recover0 SYS 700 9 1 P0 0 rfl).1 (by decide)

/-- Counterexample to C7 as stated: in a paused state, an unauthorized caller
gets EnforcedPause, not UnauthorizedRelayer. -/
theorem rebalance_paused_unauthorized_cex :
    rebalance PS 9 0 1 A0 = .error .EnforcedPause ∧
    rebalance PS 9 0 1 A0 ≠ .error .UnauthorizedRelayer ∧
    PS.authorizedRelayers 9 = false ∧ (9 : Addr) ≠ PS.owner ∧
    (PS.vaults 1).owner ≠ 0 := by
  have h : rebalance PS 9 0 1 A0 = .error .EnforcedPause := rfl
  refine ⟨h, ?_, rfl, by decide, by decide⟩
  rw [h]
  simp

/-- Witness for C7: in an unpaused state an unauthorized caller gets UnauthorizedRelayer and no state change. -/
theorem rebalance_unauthorized_witness :
    rebalance WS 9 0 1 A0 = .error .UnauthorizedRelayer ∧
    commitP WS (rebalance WS 9 0 1 A0) = WS :=
  (rebalance_unauthorized_fails WS 9 0 1 A0 (by decide) (by decide)).1 rfl

/-- Witness for C8: the owner successfully sets a 1 percent fee. -/
theorem setProtocolFee_witness :
    setProtocolFee WS 5 100 = .ok { WS with protocolFeeBps := 100 } :=
  (setProtocolFee_ceiling_and_rebalance_fee_bound WS 5 100).2.1 rfl (by decide)

/-- Witness for C10: a concrete zero-share withdraw panics. -/
theorem withdraw_zero_totalShares_witness :
    withdraw ZS 13 1 0 = .error .Panic :=
  withdraw_zero_totalShares_panics ZS 13 1 (by decide) rfl

/-- Counterexample to C6 as stated: on an existing vault with totalShares = 0
the caller holds no fewer shares than the zero requested, yet withdraw panics
on the division by zero instead of returning the proportional amounts. -/
theorem withdraw_zero_state_cex :
    withdraw ZS 12 1 0 = .error .Panic ∧ (ZS.vaults 1).owner ≠ 0 ∧
    ¬ (ZS.userShares 1 12 < 0) := by
  exact ⟨rfl, by decide, by omega⟩

/-- Witness for C6: a concrete successful proportional withdraw. -/
theorem withdraw_correctness_witness :
    ∃ s2, withdraw WS 9 1 500 = .ok
      ((500 * (WS.vaults 1).totalTokenA / (WS.vaults 1).totalShares,
        500 * (WS.vaults 1).totalTokenB / (WS.vaults 1).totalShares), s2) ∧
      (s2.vaults 1).totalShares = (WS.vaults 1).totalShares - 500 ∧
      (s2.vaults 1).totalTokenA = (WS.vaults 1).totalTokenA -
        500 * (WS.vaults 1).totalTokenA / (WS.vaults 1).totalShares ∧
      (s2.vaults 1).totalTokenB = (WS.vaults 1).totalTokenB -
        500 * (WS.vaults 1).totalTokenB / (WS.vaults 1).totalShares ∧
      s2.userShares 1 9 = WS.userShares 1 9 - 500 ∧
      500 ≤ (WS.vaults 1).totalShares ∧
      500 * (WS.vaults 1).totalTokenA / (WS.vaults 1).totalShares ≤
        (WS.vaults 1).totalTokenA ∧
      500 * (WS.vaults 1).totalTokenB / (WS.vaults 1).totalShares ≤
        (WS.vaults 1).totalTokenB :=
  (withdraw_correctness WS 9 1 500 (by decide)).2 (by decide) (by decide)
    (by decide) (by decide) Inv_WS


theorem deposit_share_minting_rule :
    (∀ n : Nat, Nat.sqrt n * Nat.sqrt n ≤ n ∧ n < (Nat.sqrt n + 1) * (Nat.sqrt n + 1)) ∧
    (∀ x, x + 1 < UMAX → sqrtU x = .ok (Nat.sqrt x)) ∧
    sqrtU (UMAX - 1) = .error .Panic ∧
    (∀ (s : VMState) (sender : Addr) (vaultId amountA amountB shares : Nat) (s2 : VMState),
      deposit s sender vaultId amountA amountB = .ok (shares, s2) →
      ((s.vaults vaultId).totalShares = 0 → shares = Nat.sqrt (amountA * amountB)) ∧
      ((s.vaults vaultId).totalShares ≠ 0 → shares = min
        (amountA * (s.vaults vaultId).totalShares / (s.vaults vaultId).totalTokenA)
        (amountB * (s.vaults vaultId).totalShares / (s.vaults vaultId).totalTokenB))) :=
  ⟨fun n => ⟨Nat.sqrt_le n, Nat.lt_succ_sqrt n⟩, sqrtU_correct, sqrtU_overflow,
    fun _ _ _ _ _ _ _ h => deposit_ok_shares h⟩

/-- Counterexample to C5 as stated: on an empty active vault, depositing
2^128 - 1 and 2^128 + 1 (product 2^256 - 1, whose floor square root is
2^128 - 1) panics inside _sqrt instead of minting 2^128 - 1 shares. -/
theorem deposit_sqrt_overflow_cex :
    deposit ZS 9 1 (2 ^ 128 - 1) (2 ^ 128 + 1) = .error .Panic ∧
    (ZS.vaults 1).totalShares = 0 ∧ (ZS.vaults 1).isActive = true ∧
    (ZS.vaults 1).owner ≠ 0 ∧ ZS.paused = false ∧
    MIN_DEPOSIT ≤ 2 ^ 128 - 1 ∧ MIN_DEPOSIT ≤ 2 ^ 128 + 1 ∧
    Nat.sqrt ((2 ^ 128 - 1) * (2 ^ 128 + 1)) = 2 ^ 128 - 1 := by
  refine ⟨rfl, rfl, rfl, by decide, rfl, by decide, by decide, ?_⟩
  symm
  rw [Nat.eq_sqrt]
  exact ⟨by norm_num, by norm_num⟩

/-- Witness for C5: the checked _sqrt computes the floor square root of 144. -/
theorem deposit_share_minting_witness :
    144 + 1 < UMAX ∧ sqrtU 144 = Except.ok 12 := by
  have h12 : Nat.sqrt 144 = 12 := by
    symm
    rw [Nat.eq_sqrt]
    exact ⟨by norm_num, by norm_num⟩
  refine ⟨by norm_num [UMAX], ?_⟩
  rw [← h12]
  exact deposit_share_minting_rule.2.1 144 (by norm_num [UMAX])

end ALO
